import Mathlib

/-!
Verification of the babel-watch coordinator/worker system.

This file gives a shallow embedding of the core logic of babel-watch:

* the Source Bridge wire protocol (the coordinator's framed write block inside
  `restartAppInternal`'s message handler, and the worker's `readLength` /
  `readFileFromPipeSync` / `babelWatchLoader` read loop from runner.js);
* the compilation cache logic (`handleFileLoad`);
* the supervisor process lifecycle (`killApp` / `restartApp` /
  `restartAppInternal`), modelled as an event-driven state machine whose
  environment delivers restart requests, child-exit notifications and
  kill-timer expirations;
* the debounced change handler (`handleChange`, `lodash.debounce` with the
  fixed 100 ms `DEBOUNCE_DURATION`);
* the worker-to-coordinator message format and the coordinator's message
  filter, and the error handling of the coordinator's pipe writes.

Bytes are modelled as `Nat` (values < 256 in every reachable computation),
byte buffers as `List Nat`.  The kernel's `fs.readSync` on the pipe is
modelled by a "delivery schedule": a list whose k-th entry is the number of
bytes the kernel makes available to the k-th read call; each read returns
`min requested (min available remaining)` bytes.  An exhausted schedule (or
an empty stream) models a read that blocks forever, so a function result of
`none` means the worker never completes the read.
-/

namespace BabelWatch

/-! ### Source Bridge byte layer (runner.js and the coordinator write block) -/

/-- Big-endian serialization of a 32-bit length, as `Buffer.writeUInt32BE`. -/
def toBE4 (n : Nat) : List Nat :=
  [n / 2 ^ 24 % 256, n / 2 ^ 16 % 256, n / 2 ^ 8 % 256, n % 256]

/-- Model of `BUFFER.readUInt32BE(0)`: reads the first four bytes of the
worker-side scratch buffer as a big-endian 32-bit value.  (The scratch buffer
always holds at least 4 bytes when this is called; shorter lists return 0 and
never occur in the code paths modelled.) -/
def readUInt32BEList (l : List Nat) : Nat :=
  match l with
  | b0 :: b1 :: b2 :: b3 :: _ => b0 * 2 ^ 24 + b1 * 2 ^ 16 + b2 * 2 ^ 8 + b3
  | _ => 0

/-- One frame as written by the coordinator's response block:
`lenBuf.writeUInt32BE(buf.length); fs.writeSync(pipeFd, lenBuf, 0, 4);
buf.length && fs.writeSync(pipeFd, buf, 0, buf.length);` — a 4-byte
big-endian length followed by the payload bytes, with the payload write
skipped entirely when the length is 0. -/
def writeFrame (payload : List Nat) : List Nat :=
  toBE4 payload.length ++ (if payload.length = 0 then [] else payload)

/-- The two consecutive frames of one Source Bridge exchange (compiled source
frame, then source-map frame), as written by the coordinator. -/
def writeResponse (sourceBuf mapBuf : List Nat) : List Nat :=
  writeFrame sourceBuf ++ writeFrame mapBuf

/-- Bytes written for a `handleFileLoad` callback invocation:
`Buffer.from(source || '')` and `Buffer.from(sourceMap ? JSON.stringify(sourceMap) : [])`
— an absent (or empty) argument becomes an empty buffer.  The serialized map
is treated opaquely as its byte content. -/
def respondBytes (source mapPayload : Option (List Nat)) : List Nat :=
  writeResponse (source.getD []) (mapPayload.getD [])

/-- Size of the worker's scratch buffer: `new Buffer(10 * 1024)`. -/
def BUFFER_SIZE : Nat := 10240

/-- Worker-side `readLength`: repeatedly issues `fs.readSync(fd, BUFFER, 0, 4)`
until a single call returns exactly 4 bytes, then decodes `BUFFER.readUInt32BE(0)`.
A short read overwrites the scratch buffer from offset 0, so its bytes are
consumed from the stream but do not contribute to the decoded length.
Arguments: the delivery schedule and the remaining byte stream.  Returns the
decoded length, the remaining stream and the remaining schedule, or `none`
when the loop never sees a full 4-byte read (it then spins forever). -/
def readLength : List Nat → List Nat → Option (Nat × List Nat × List Nat)
  | [], _ => none
  | a :: sched, stream =>
    let n := min 4 (min a stream.length)
    if n = 4 then some (readUInt32BEList (stream.take 4), stream.drop 4, sched)
    else readLength sched (stream.drop n)

/-- Worker-side payload loop of `readFileFromPipeSync`:
`while (length > 0) { newBytes = fs.readSync(fd, BUFFER, 0, min(BUFFER.length, length));
length -= newBytes; result = Buffer.concat([result, BUFFER], result.length + newBytes); }`.
Each delivered chunk is appended to the accumulator; the loop ends when the
declared byte count is satisfied.  Returns the accumulated payload, the
remaining stream and the remaining schedule, or `none` when the schedule is
exhausted before the count is satisfied (the loop then blocks forever). -/
def readPayload (sched : List Nat) (len : Nat) (stream acc : List Nat) :
    Option (List Nat × List Nat × List Nat) :=
  match sched, len with
  | sched, 0 => some (acc, stream, sched)
  | [], _ + 1 => none
  | a :: sched1, len1 + 1 =>
    let n := min (min BUFFER_SIZE (len1 + 1)) (min a stream.length)
    readPayload sched1 (len1 + 1 - n) (stream.drop n) (acc ++ stream.take n)

/-- Worker-side `readFileFromPipeSync`: read a 4-byte length, then that many
payload bytes. -/
def readFileFromPipeSync (sched stream : List Nat) :
    Option (List Nat × List Nat × List Nat) :=
  match readLength sched stream with
  | none => none
  | some (len, stream1, sched1) => readPayload sched1 len stream1 []

/-- What the worker-side loader does with a completed exchange. -/
inductive LoadAction
  | compileSource (source mapStr : List Nat)
  | defaultLoad
deriving DecidableEq, Repr

/-- Worker-side `babelWatchLoader`: reads the source frame, then the map
frame, then `if (source) { module_._compile(source, filename) } else
{ defaultHandler(module_, filename) }` — an empty source string is falsy, so
it defers to the default native loading path. -/
def babelWatchLoader (sched stream : List Nat) : Option LoadAction :=
  match readFileFromPipeSync sched stream with
  | none => none
  | some (source, stream1, sched1) =>
    match readFileFromPipeSync sched1 stream1 with
    | none => none
    | some (mapB, _, _) =>
      if source = [] then some LoadAction.defaultLoad
      else some (LoadAction.compileSource source mapB)

/-! ### Compilation cache (`handleFileLoad`) -/

/-- A cached compiled artifact: `cache[filename] = { code, map, mtime }`. -/
structure Artifact where
  code : List Nat
  map : List Nat
  mtime : Nat
deriving DecidableEq, Repr

/-- Outcome of `babel.transformFile` / the `compile` callback, as classified
by `handleFileLoad`: success, an `IgnoredFileError` (babel's option manager
declined the file), a compilation error, or a missing result (which
`handleFileLoad` converts into an error). -/
inductive CompileResult
  | ok (code map : List Nat)
  | ignoredFile
  | failed
  | noResult
deriving DecidableEq, Repr

/-- How `handleFileLoad` invoked its response callback for one exchange. -/
inductive Response
  | served (code map : List Nat)
  | servedEmpty
  | noResponse
deriving DecidableEq, Repr

/-- Result of one `handleFileLoad` call: the callback invocation, whether the
external compiler was invoked, and the per-path cache / error-set /
ignored-set entries afterwards. -/
structure LoadOutcome where
  response : Response
  compiled : Bool
  cacheAfter : Option Artifact
  errorAfter : Bool
  ignoredAfter : Bool
deriving DecidableEq, Repr

/-- The non-cached path of `handleFileLoad`: check `shouldIgnore` (extension
not in `transpileExtensions`, or a cached `ignored[filename]` marker), else
invoke `compile` and classify its result exactly as the code does. -/
def handleFileLoadMiss (cached : Option Artifact) (errBefore ignBefore : Bool)
    (mtimeAfter : Nat) (extNotTranspiled : Bool) (res : CompileResult) : LoadOutcome :=
  if extNotTranspiled || ignBefore then
    ⟨Response.servedEmpty, false, cached, errBefore, ignBefore⟩
  else
    match res with
    | CompileResult.ok code map =>
      ⟨Response.served code map, true, some ⟨code, map, mtimeAfter⟩, false, ignBefore⟩
    | CompileResult.ignoredFile =>
      ⟨Response.servedEmpty, true, cached, errBefore, true⟩
    | CompileResult.failed =>
      ⟨Response.noResponse, true, cached, true, ignBefore⟩
    | CompileResult.noResult =>
      ⟨Response.noResponse, true, cached, true, ignBefore⟩

/-- Coordinator-side `handleFileLoad` for one path.  `mtimeNow` is the
modification time `fs.statSync` reports at the cache check; `mtimeAfter` the
one it reports after a successful compile.  A cache hit with matching mtime
is served directly without invoking the compiler. -/
def handleFileLoad (cached : Option Artifact) (errBefore ignBefore : Bool)
    (mtimeNow mtimeAfter : Nat) (extNotTranspiled : Bool) (res : CompileResult) : LoadOutcome :=
  match cached with
  | some art =>
    if mtimeNow = art.mtime then
      ⟨Response.served art.code art.map, false, some art, errBefore, ignBefore⟩
    else handleFileLoadMiss (some art) errBefore ignBefore mtimeAfter extNotTranspiled res
  | none => handleFileLoadMiss none errBefore ignBefore mtimeAfter extNotTranspiled res

/-- Bytes the coordinator writes on the pipe for a given callback invocation:
no callback, no frames at all. -/
def exchangeBytes : Response → List Nat
  | Response.served c m => respondBytes (some c) (some m)
  | Response.servedEmpty => respondBytes none none
  | Response.noResponse => []

/-! ### Supervisor state machine (`killApp` / `restartApp` / `restartAppInternal`)

One `killApp` invocation registers a `childApp.once('exit', onExit)` listener
and a `setTimeout` timer; its local `exited` flag makes `onExit` idempotent
for that invocation.  We record each invocation as a `KillCtx`.  The
environment delivers events: a restart request (file-change burst, stdin
restart command, or watcher-ready), the exit of a worker process, or the
expiry of one invocation's kill timer.  `live` is the set of actually-running
worker processes (the code only holds the single handle `childApp`; a forked
process stays alive until it exits or is SIGKILLed). -/

/-- One `killApp` invocation: which pid its `once('exit')` listener and timer
target, and its local `exited` flag. -/
structure KillCtx where
  target : Nat
  exited : Bool
deriving DecidableEq, Repr

/-- Coordinator state: the `childApp` handle, whether `pipeFd` is open, the
set of live worker processes, a fresh-pid counter, the `errors` object's keys,
all `killApp` invocation contexts, and a counter of `fork` calls. -/
structure CState where
  childApp : Option Nat
  pipeOpen : Bool
  live : List Nat
  nextPid : Nat
  errors : List String
  kills : List KillCtx
  forkCount : Nat
deriving DecidableEq, Repr

/-- `clearState` inside `killApp`: close `pipeFd`, unlink the pipe file, and
clear `pipeFd` / `pipeFilename` / `childApp`. -/
def clearState (s : CState) : CState :=
  { s with childApp := none, pipeOpen := false }

/-- `restartAppInternal`: bail out if the `errors` object is non-empty,
otherwise create the fifo, fork a fresh runner process, send it the start
message and open the pipe. -/
def restartAppInternal (s : CState) : CState :=
  if s.errors.isEmpty then
    { s with childApp := some s.nextPid, pipeOpen := true,
             live := s.nextPid :: s.live, nextPid := s.nextPid + 1,
             forkCount := s.forkCount + 1 }
  else s

/-- `onExit` of the `i`-th `killApp` invocation: if that invocation already
ran it, do nothing; otherwise mark it, run `clearState`, and run the callback
(`restartAppInternal`, as passed by `restartApp`). -/
def onExit (s : CState) (i : Nat) : CState :=
  match s.kills[i]? with
  | none => s
  | some ctx =>
    if ctx.exited then s
    else restartAppInternal (clearState { s with kills := s.kills.set i ⟨ctx.target, true⟩ })

/-- The `once('exit')` listeners that fire when process `pid` exits: every
`killApp` invocation that targeted `pid`, in registration order. -/
def runListeners (pid : Nat) : List Nat → CState → CState
  | [], s => s
  | i :: is, s =>
    match s.kills[i]? with
    | some ctx =>
      if ctx.target = pid then runListeners pid is (onExit s i)
      else runListeners pid is s
    | none => runListeners pid is s

/-- `killApp` (with `restartApp`'s callback): if no `childApp`, run `onExit`
immediately; if the handle's process is no longer running
(`process.kill(pid, 0)` throws), likewise; otherwise register the exit
listener and the kill timer and send `SIGHUP` (whether and when the process
exits is up to the environment). -/
def killApp (s : CState) : CState :=
  match s.childApp with
  | none => restartAppInternal (clearState s)
  | some pid =>
    if pid ∈ s.live then { s with kills := s.kills ++ [⟨pid, false⟩] }
    else restartAppInternal (clearState s)

/-- `restartApp` after watcher initialization: log the restart message and
call `killApp` with `restartAppInternal` as the completion callback. -/
def restartApp (s : CState) : CState := killApp s

/-- The `setTimeout` handler of the `i`-th `killApp` invocation: if its
`onExit` already ran, return; otherwise SIGKILL the current global `childApp`
(if any) and run `onExit`. -/
def timerFire (s : CState) (i : Nat) : CState :=
  match s.kills[i]? with
  | none => s
  | some ctx =>
    if ctx.exited then s
    else
      let s1 := match s.childApp with
        | some p => { s with live := s.live.erase p }
        | none => s
      onExit s1 i

/-- Environment events driving the supervisor. -/
inductive Ev
  | request
  | exitEvt (pid : Nat)
  | timer (i : Nat)
deriving DecidableEq, Repr

/-- One step of the supervisor: a restart request runs `restartApp`; the exit
of a live process removes it from the live set and fires its registered
`once('exit')` listeners in order; a timer expiry runs that invocation's
timeout handler. -/
def step (s : CState) : Ev → CState
  | Ev.request => restartApp s
  | Ev.exitEvt pid =>
    if pid ∈ s.live then
      runListeners pid (List.range s.kills.length) { s with live := s.live.erase pid }
    else s
  | Ev.timer i => timerFire s i

/-- State at coordinator startup (after watcher initialization, before the
first restart request). -/
def initState : CState :=
  ⟨none, false, [], 1, [], [], 0⟩

/-- All `killApp` invocations so far have completed their `onExit`. -/
def allSettled (s : CState) : Bool :=
  s.kills.all (fun c => c.exited)

/-- A run is overlap-free when every restart request arrives while no
`killApp` teardown is still pending. -/
def noOverlapRun (s : CState) : List Ev → Bool
  | [] => true
  | e :: es =>
    (match e with
     | Ev.request => allSettled s
     | _ => true) && noOverlapRun (step s e) es

/-- At most one `killApp` invocation is pending (its `onExit` not yet run). -/
def UniqueUnsettled (ks : List KillCtx) : Prop :=
  ∀ (i j : Nat) (ci cj : KillCtx), ks[i]? = some ci → ks[j]? = some cj →
    ci.exited = false → cj.exited = false → i = j

/-- Supervisor invariant maintained on overlap-free runs: at most one live
worker, every live worker is the one `childApp` points to, every pending kill
targets the current `childApp`, and at most one kill is pending. -/
def Inv (s : CState) : Prop :=
  s.live.length ≤ 1 ∧
  (∀ q ∈ s.live, s.childApp = some q) ∧
  (∀ c ∈ s.kills, c.exited = false → s.childApp = some c.target) ∧
  UniqueUnsettled s.kills

/-- Default of the `--restart-timeout <ms>` option (commander default 2000). -/
def defaultRestartTimeout : Nat := 2000

/-- `const restartTimeout = Number.isFinite(program.restartTimeout) ?
program.restartTimeout : 2000` — a finite configured value is used as is,
anything else falls back to 2000. -/
def restartTimeoutOf (configured : Option Nat) : Nat :=
  match configured with
  | some n => n
  | none => defaultRestartTimeout

/-- The instant the `killApp` kill timer fires: `setTimeout(..., restartTimeout)`
scheduled when the graceful `SIGHUP` is sent. -/
def sigkillDeadline (sighupAt : Nat) (configured : Option Nat) : Nat :=
  sighupAt + restartTimeoutOf configured

/-! ### Debounced change handling (`handleChange`, `DEBOUNCE_DURATION`) -/

/-- `const DEBOUNCE_DURATION = 100; //milliseconds`. -/
def DEBOUNCE_DURATION : Nat := 100

/-- Trailing-edge debounce as implemented by `lodash.debounce(f, wait)` with
default options: given the (sorted) call instants, the wrapped function runs
`wait` after the last call of each burst; a call arriving within `wait` of the
previous one restarts the timer.  Returns the instants at which the wrapped
function actually runs. -/
def debounceFires (wait : Nat) : List Nat → List Nat
  | [] => []
  | [t] => [t + wait]
  | t1 :: t2 :: ts =>
    if t2 < t1 + wait then debounceFires wait (t2 :: ts)
    else (t1 + wait) :: debounceFires wait (t2 :: ts)

/-- Event times form one burst: sorted, and each event arrives strictly
within `DEBOUNCE_DURATION` of the previous one. -/
def isBurst : List Nat → Bool
  | [] => true
  | [_] => true
  | t1 :: t2 :: ts => (decide (t1 ≤ t2) && decide (t2 < t1 + DEBOUNCE_DURATION)) && isBurst (t2 :: ts)

/-- Watcher-facing coordinator state touched by `handleChange`: the
compilation cache, the `errors` keys, and the `changedFiles` log. -/
structure WatcherState where
  cache : List (String × Artifact)
  errors : List String
  changedFiles : List String
deriving DecidableEq, Repr

/-- `handleChange(file)`: compute `isUsed` (a cache or error entry exists),
delete both entries if so, and — when the file is not ignored — record it and
call the debounced `restartApp`.  Returns the new state and whether the
debounced restart was requested. -/
def handleChange (s : WatcherState) (file : String) (isIgnored : Bool) :
    WatcherState × Bool :=
  let isUsed := (s.cache.any (fun p => p.1 = file)) || s.errors.contains file
  let s1 := if isUsed then
      { s with cache := s.cache.filter (fun p => p.1 ≠ file),
               errors := s.errors.filter (fun e => e ≠ file) }
    else s
  if isIgnored then (s1, false)
  else ({ s1 with changedFiles := s1.changedFiles ++ [file] }, true)

/-! ### Worker messages and coordinator-side write error handling -/

/-- A message sent over the child-process IPC channel, with its optional
`event` tag and optional `filename` field. -/
structure WorkerMessage where
  event : Option String
  filename : Option String
deriving DecidableEq, Repr

/-- The single message the bundled runner.js sends per intercepted load:
`process.send({ filename: filename })` — it carries the absolute filename and
no `event` tag. -/
def workerLoadNotification (filename : String) : WorkerMessage :=
  ⟨none, some filename⟩

/-- What the coordinator's `app.on('message', ...)` handler does with one
message: which path it registered with the watcher (if any) and whether it
started the `handleFileLoad` exchange. -/
structure MsgAction where
  watched : Option String
  exchange : Bool
deriving DecidableEq, Repr

/-- Coordinator message handler: `if (!data || data.event !==
'babel-watch-filename') return;` then `watcher.add` (unless autowatch is
disabled) and `handleFileLoad`. -/
def onWorkerMessage (disableAutowatch : Bool) (data : Option WorkerMessage) : MsgAction :=
  match data with
  | none => ⟨none, false⟩
  | some d =>
    if d.event = some "babel-watch-filename" then
      ⟨(if disableAutowatch then none else d.filename), true⟩
    else ⟨none, false⟩

/-- Failure of a `fs.writeSync` on the pipe, identified by its `error.code`. -/
inductive WriteError
  | epipe
  | other (code : String)
deriving DecidableEq, Repr

/-- The coordinator's framed write block: `if (pipeFd) { try { ...writes... }
catch (error) { if (error.code !== 'EPIPE') throw error } }` — EPIPE is
swallowed, every other failure is rethrown out of the message handler. -/
def writeFramesResult (pipeFdSet : Bool) (writeErr : Option WriteError) :
    Except WriteError Unit :=
  if pipeFdSet then
    match writeErr with
    | none => Except.ok ()
    | some WriteError.epipe => Except.ok ()
    | some e => Except.error e
  else Except.ok ()

/-- The process-level event names the coordinator registers handlers for:
`process.on('SIGINT', ...)` and `process.on('unhandledException', ...)`. -/
def registeredProcessEvents : List String :=
  ["SIGINT", "unhandledException"]

/-- The event Node.js actually emits for an exception that escapes every
handler; without a listener for it the process is terminated. -/
def nodeFatalHookEvent : String := "uncaughtException"

/-- Whether an exception rethrown out of the message handler is caught by a
registered process-level hook (keeping the coordinator alive). -/
def coordinatorSurvivesWriteFailure : Bool :=
  registeredProcessEvents.contains nodeFatalHookEvent

/-! ### Byte-layer lemmas -/

theorem toBE4_length (L : Nat) : (toBE4 L).length = 4 := rfl

theorem be4_roundtrip (L : Nat) (h : L < 2 ^ 32) : readUInt32BEList (toBE4 L) = L := by
  simp only [toBE4, readUInt32BEList]
  omega

theorem readLength_exact (a : Nat) (sched : List Nat) (L : Nat) (rest : List Nat)
    (ha : 4 ≤ a) (hL : L < 2 ^ 32) :
    readLength (a :: sched) (toBE4 L ++ rest) = some (L, rest, sched) := by
  have hlen : (toBE4 L ++ rest).length = 4 + rest.length := by
    simp [toBE4_length]
  have hmin : min 4 (min a (toBE4 L ++ rest).length) = 4 := by
    rw [hlen]; omega
  have htake : (toBE4 L ++ rest).take 4 = toBE4 L := by
    rw [show (4 : Nat) = (toBE4 L).length from rfl]
    exact List.take_left _ _
  have hdrop : (toBE4 L ++ rest).drop 4 = rest := by
    rw [show (4 : Nat) = (toBE4 L).length from rfl]
    exact List.drop_left _ _
  simp only [readLength, hmin, htake, hdrop, be4_roundtrip L hL, if_pos]

theorem readPayload_zero (sched stream acc : List Nat) :
    readPayload sched 0 stream acc = some (acc, stream, sched) := by
  cases sched <;> rfl

theorem readPayload_single (a : Nat) (sched : List Nat) (p rest acc : List Nat)
    (hne : p ≠ []) (hb : p.length ≤ BUFFER_SIZE) (hba : p.length ≤ a) :
    readPayload (a :: sched) p.length (p ++ rest) acc = some (acc ++ p, rest, sched) := by
  obtain ⟨k, hk⟩ : ∃ k, p.length = k + 1 := by
    cases hp : p with
    | nil => exact absurd hp hne
    | cons x xs => exact ⟨xs.length, by simp [hp]⟩
  rw [hk] at hb hba
  have hmin : min (min BUFFER_SIZE (k + 1)) (min a (p ++ rest).length) = k + 1 := by
    have hl : (p ++ rest).length = (k + 1) + rest.length := by
      simp [List.length_append, hk]
    rw [hl]
    simp only [BUFFER_SIZE] at hb ⊢
    omega
  have htake : (p ++ rest).take (k + 1) = p := by
    rw [← hk]; exact List.take_left _ _
  have hdrop : (p ++ rest).drop (k + 1) = rest := by
    rw [← hk]; exact List.drop_left _ _
  rw [hk]
  simp only [readPayload, hmin, htake, hdrop, Nat.sub_self]

theorem readPayload_sound : ∀ (sched : List Nat) (len : Nat) (stream acc p rest sch2 : List Nat),
    readPayload sched len stream acc = some (p, rest, sch2) →
    p = acc ++ stream.take len ∧ rest = stream.drop len := by
  intro sched
  induction sched with
  | nil =>
    intro len stream acc p rest sch2 h
    cases len with
    | zero =>
      rw [readPayload_zero] at h
      simp only [Option.some.injEq, Prod.mk.injEq] at h
      obtain ⟨h1, h2, h3⟩ := h
      simp [h1, h2]
    | succ k => exact absurd h (by simp [readPayload])
  | cons a sch ih =>
    intro len stream acc p rest sch2 h
    cases len with
    | zero =>
      rw [readPayload_zero] at h
      simp only [Option.some.injEq, Prod.mk.injEq] at h
      obtain ⟨h1, h2, h3⟩ := h
      simp [h1, h2]
    | succ k =>
      simp only [readPayload] at h
      obtain ⟨h1, h2⟩ := ih _ _ _ _ _ _ h
      have hn_le : min (min BUFFER_SIZE (k + 1)) (min a stream.length) ≤ k + 1 := by
        omega
      have hn_sl : min (min BUFFER_SIZE (k + 1)) (min a stream.length) ≤ stream.length := by
        omega
      constructor
      · rw [h1, List.append_assoc]
        congr 1
        rw [← List.take_add]
        congr 1
        omega
      · rw [h2, List.drop_drop]
        congr 1
        omega

theorem readFrame_empty (a : Nat) (sched rest : List Nat) (ha : 4 ≤ a) :
    readFileFromPipeSync (a :: sched) (writeFrame [] ++ rest) = some ([], rest, sched) := by
  have h0 : writeFrame [] = toBE4 0 := by simp [writeFrame]
  rw [h0]
  simp only [readFileFromPipeSync, readLength_exact a sched 0 rest ha (by norm_num)]
  exact readPayload_zero _ _ _

theorem readFrame_exact (a b : Nat) (sched p rest : List Nat)
    (ha : 4 ≤ a) (hne : p ≠ []) (hb1 : p.length ≤ BUFFER_SIZE) (hb2 : p.length ≤ b) :
    readFileFromPipeSync (a :: b :: sched) (writeFrame p ++ rest) = some (p, rest, sched) := by
  have h32 : p.length < 2 ^ 32 := lt_of_le_of_lt hb1 (by norm_num [BUFFER_SIZE])
  have hw : writeFrame p = toBE4 p.length ++ p := by
    simp [writeFrame, List.length_eq_zero, hne]
  rw [hw, List.append_assoc]
  simp only [readFileFromPipeSync,
    readLength_exact a (b :: sched) p.length (p ++ rest) ha h32]
  simpa using readPayload_single b sched p rest [] hne hb1 hb2

theorem readLength_empty (sched : List Nat) : readLength sched [] = none := by
  induction sched with
  | nil => rfl
  | cons a sch ih => simp [readLength, ih]

theorem readFileFromPipeSync_blocked (sched : List Nat) :
    readFileFromPipeSync sched [] = none := by
  simp [readFileFromPipeSync, readLength_empty]

/-! ### Claim C1 -/

/-- C1: when the coordinator's load callback is invoked with no source, the
coordinator writes a first frame whose 4-byte big-endian length is 0 with no
payload bytes, and the worker, reading a declared length of 0 (for any map
frame of payload at most the scratch-buffer size, delivered whole), takes the
default native loading path instead of compiling a zero-byte source. -/
theorem c1_no_artifact_roundtrip (mp : Option (List Nat))
    (hlen : (mp.getD []).length ≤ BUFFER_SIZE) :
    writeFrame ((none : Option (List Nat)).getD []) = [0, 0, 0, 0] ∧
    babelWatchLoader [4, 4, (mp.getD []).length] (respondBytes none mp) =
      some LoadAction.defaultLoad := by
  constructor
  · rfl
  · have h1 : respondBytes none mp = writeFrame [] ++ writeFrame (mp.getD []) := by
      simp [respondBytes, writeResponse]
    rw [h1]
    simp only [babelWatchLoader,
      readFrame_empty 4 [4, (mp.getD []).length] (writeFrame (mp.getD [])) (by norm_num)]
    by_cases hm : mp.getD [] = []
    · rw [hm, show writeFrame [] = writeFrame [] ++ [] from (List.append_nil _).symm]
      simp only [readFrame_empty 4 [([] : List Nat).length] [] (by norm_num)]
      rfl
    · rw [show writeFrame (mp.getD []) = writeFrame (mp.getD []) ++ [] from
        (List.append_nil _).symm]
      simp only [readFrame_exact 4 (mp.getD []).length [] (mp.getD []) []
        (by norm_num) hm hlen (le_refl _)]
      rfl

/-- C1 witness at a concrete map payload. -/
theorem c1_no_artifact_roundtrip_witness :
    ((some [65, 66, 67] : Option (List Nat)).getD []).length ≤ BUFFER_SIZE ∧
    babelWatchLoader [4, 4, 3] (respondBytes none (some [65, 66, 67])) =
      some LoadAction.defaultLoad :=
  ⟨by decide, (c1_no_artifact_roundtrip (some [65, 66, 67]) (by decide)).2⟩

/-! ### Claim C2 -/

/-- C2 counterexample: the coordinator writes the full response for the
2-byte source "AB" (10 bytes in all), and the channel delivers every byte —
as reads of 2, 2, 4 and then up to 4 bytes — yet the worker never assembles
the frame: `readLength` discards the two short reads (which held the real
length prefix), then misreads payload bytes as a huge length and blocks
forever.  This refutes "no bytes delivered by the channel are discarded, and
after any sequence of short reads the assembled frame equals the bytes the
coordinator wrote". -/
theorem c2_short_reads_counterexample :
    writeResponse [65, 66] [] = [0, 0, 0, 2, 65, 66, 0, 0, 0, 0] ∧
    readFileFromPipeSync [2, 2, 4, 4] (writeResponse [65, 66] []) = none := by
  constructor <;> rfl

/-- C2 (amended): the payload loop does accumulate partial reads — whenever a
frame read completes, the assembled payload is exactly the frame's payload
bytes, in order, with the remainder of the stream untouched — provided the
4-byte length prefix was delivered in a single read (the prefix loop retries
whole 4-byte reads and discards short deliveries, as the counterexample
shows). -/
theorem c2_frame_read_amended (src rest : List Nat) (a : Nat) (sched : List Nat)
    (p s2 sch2 : List Nat) (ha : 4 ≤ a) (h32 : src.length < 2 ^ 32)
    (h : readFileFromPipeSync (a :: sched) (writeFrame src ++ rest) = some (p, s2, sch2)) :
    p = src ∧ s2 = rest := by
  by_cases hsrc : src = []
  · subst hsrc
    rw [readFrame_empty a sched rest ha] at h
    simp only [Option.some.injEq, Prod.mk.injEq] at h
    obtain ⟨h1, h2, h3⟩ := h
    exact ⟨h1.symm, h2.symm⟩
  · have hw : writeFrame src = toBE4 src.length ++ src := by
      simp [writeFrame, List.length_eq_zero, hsrc]
    rw [hw, List.append_assoc] at h
    simp only [readFileFromPipeSync,
      readLength_exact a sched src.length (src ++ rest) ha h32] at h
    obtain ⟨h1, h2⟩ := readPayload_sound sched src.length (src ++ rest) [] p s2 sch2 h
    constructor
    · rw [h1, List.nil_append, List.take_left]
    · rw [h2, List.drop_left]

/-- C2 witness: a concrete frame whose prefix arrives whole round-trips. -/
theorem c2_frame_read_amended_witness :
    readFileFromPipeSync [4, 3] (writeFrame [7, 8, 9] ++ []) = some ([7, 8, 9], [], []) ∧
    ([7, 8, 9] : List Nat) = [7, 8, 9] ∧ ([] : List Nat) = [] :=
  ⟨by rfl,
   (c2_frame_read_amended [7, 8, 9] [] 4 [3] [7, 8, 9] [] [] (by norm_num) (by norm_num)
      (by rfl)).1,
   (c2_frame_read_amended [7, 8, 9] [] 4 [3] [7, 8, 9] [] [] (by norm_num) (by norm_num)
      (by rfl)).2⟩

/-! ### Claim C6 -/

/-- C6: a load request for a path with a cached artifact is served the cached
code and map without invoking the compiler when the current modification time
equals the stored one, and when it differs, anything served comes from a
fresh compile (the compiler was invoked and produced exactly what is served)
— never the stale cached artifact. -/
theorem c6_cache_memoization_freshness (art : Artifact) (errB ignB : Bool)
    (mtimeNow mtimeAfter : Nat) (extNot : Bool) (res : CompileResult) :
    (mtimeNow = art.mtime →
      handleFileLoad (some art) errB ignB mtimeNow mtimeAfter extNot res =
        ⟨Response.served art.code art.map, false, some art, errB, ignB⟩) ∧
    (mtimeNow ≠ art.mtime →
      ∀ c m, (handleFileLoad (some art) errB ignB mtimeNow mtimeAfter extNot res).response =
          Response.served c m →
        res = CompileResult.ok c m ∧
        (handleFileLoad (some art) errB ignB mtimeNow mtimeAfter extNot res).compiled = true) := by
  constructor
  · intro h
    simp [handleFileLoad, h]
  · intro h c m
    simp only [handleFileLoad, if_neg h]
    unfold handleFileLoadMiss
    by_cases hig : (extNot || ignB) = true
    · rw [if_pos hig]
      intro hresp
      exact absurd hresp (by simp)
    · rw [if_neg hig]
      cases res with
      | ok code map =>
        intro hresp
        have h1 : Response.served code map = Response.served c m := hresp
        obtain ⟨rfl, rfl⟩ : code = c ∧ map = m := by
          injection h1 with e1 e2
          exact ⟨e1, e2⟩
        exact ⟨rfl, rfl⟩
      | ignoredFile => intro hresp; exact absurd hresp (by simp)
      | failed => intro hresp; exact absurd hresp (by simp)
      | noResult => intro hresp; exact absurd hresp (by simp)

/-- C6 witness: memoized hit at an equal mtime, and freshness at a changed
mtime, on concrete inputs. -/
theorem c6_cache_memoization_freshness_witness :
    handleFileLoad (some ⟨[1], [2], 5⟩) false false 5 9 false CompileResult.failed =
      ⟨Response.served [1] [2], false, some ⟨[1], [2], 5⟩, false, false⟩ ∧
    (CompileResult.ok [3] [4] = CompileResult.ok [3] [4] ∧
      (handleFileLoad (some ⟨[1], [2], 5⟩) false false 7 9 false
        (CompileResult.ok [3] [4])).compiled = true) :=
  ⟨(c6_cache_memoization_freshness ⟨[1], [2], 5⟩ false false 5 9 false
      CompileResult.failed).1 rfl,
   (c6_cache_memoization_freshness ⟨[1], [2], 5⟩ false false 7 9 false
      (CompileResult.ok [3] [4])).2 (by decide) [3] [4] (by rfl)⟩

/-! ### Claim C10 -/

/-- C10: when compilation of a requested, non-ignored path fails, the
coordinator records the error and never invokes the response callback, so no
frame bytes are written for the exchange, and the worker's synchronous frame
read never completes on the empty stream under any delivery schedule (it
stays blocked in the read loop). -/
theorem c10_compile_failure_blocks_worker (cached : Option Artifact) (errB : Bool)
    (mtimeNow mtimeAfter : Nat)
    (hmt : ∀ art, cached = some art → mtimeNow ≠ art.mtime) :
    (handleFileLoad cached errB false mtimeNow mtimeAfter false CompileResult.failed).response =
      Response.noResponse ∧
    (handleFileLoad cached errB false mtimeNow mtimeAfter false CompileResult.failed).errorAfter =
      true ∧
    exchangeBytes
      (handleFileLoad cached errB false mtimeNow mtimeAfter false CompileResult.failed).response =
      [] ∧
    ∀ sched : List Nat, readFileFromPipeSync sched
      (exchangeBytes
        (handleFileLoad cached errB false mtimeNow mtimeAfter false
          CompileResult.failed).response) = none := by
  have hmiss : handleFileLoad cached errB false mtimeNow mtimeAfter false CompileResult.failed =
      ⟨Response.noResponse, true, cached, true, false⟩ := by
    cases cached with
    | none => simp [handleFileLoad, handleFileLoadMiss]
    | some art => simp [handleFileLoad, hmt art rfl, handleFileLoadMiss]
  rw [hmiss]
  refine ⟨rfl, rfl, rfl, ?_⟩
  intro sched
  simpa [exchangeBytes] using readFileFromPipeSync_blocked sched

/-- C10 witness at an empty cache. -/
theorem c10_compile_failure_blocks_worker_witness :
    (handleFileLoad none false false 3 4 false CompileResult.failed).response =
      Response.noResponse ∧
    readFileFromPipeSync [4, 4]
      (exchangeBytes
        (handleFileLoad none false false 3 4 false CompileResult.failed).response) = none :=
  ⟨(c10_compile_failure_blocks_worker none false 3 4 (by intro art h; cases h)).1,
   (c10_compile_failure_blocks_worker none false 3 4 (by intro art h; cases h)).2.2.2 [4, 4]⟩

/-! ### Claim C8 -/

/-- C8 (code bug): the coordinator's response write swallows EPIPE, but every
other write failure is rethrown out of the message handler, and the only
process-level hook the coordinator registers besides SIGINT is the
nonexistent event name "unhandledException" — Node emits
"uncaughtException" — so a non-EPIPE write failure is not caught and the
coordinator process terminates, contrary to the claim that it is logged and
treated as "no artifact" without terminating the coordinator. -/
theorem c8_write_failure_crashes_coordinator :
    writeFramesResult true (some WriteError.epipe) = Except.ok () ∧
    writeFramesResult true (some (WriteError.other "EBADF")) =
      Except.error (WriteError.other "EBADF") ∧
    coordinatorSurvivesWriteFailure = false :=
  ⟨rfl, rfl, rfl⟩

/-! ### Claim C9 -/

/-- C9 (code bug): the bundled runner's only message is
`process.send({ filename })`, which carries the absolute path but no `event`
tag; the coordinator's handler drops any message whose `event` is not
"babel-watch-filename", so the worker's load notification triggers neither
watcher registration nor the two-frame exchange (a correctly tagged message
would trigger both). -/
theorem c9_untagged_notification_dropped :
    (workerLoadNotification "/app/src/a.js").filename = some "/app/src/a.js" ∧
    (workerLoadNotification "/app/src/a.js").event = none ∧
    onWorkerMessage false (some (workerLoadNotification "/app/src/a.js")) = ⟨none, false⟩ ∧
    onWorkerMessage false (some ⟨some "babel-watch-filename", some "/app/src/a.js"⟩) =
      ⟨some "/app/src/a.js", true⟩ :=
  ⟨rfl, rfl, rfl, rfl⟩

/-! ### Supervisor lemmas: errors block the start step (C3) -/

theorem restartAppInternal_of_errors (s : CState) (h : s.errors ≠ []) :
    restartAppInternal s = s := by
  unfold restartAppInternal
  rw [if_neg]
  intro hc
  exact h (List.isEmpty_iff.mp hc)

theorem restartAppInternal_errors_eq (s : CState) :
    (restartAppInternal s).errors = s.errors := by
  unfold restartAppInternal
  split <;> rfl

theorem restartAppInternal_kills (s : CState) :
    (restartAppInternal s).kills = s.kills := by
  unfold restartAppInternal
  split <;> rfl

theorem onExit_errors (s : CState) (i : Nat) : (onExit s i).errors = s.errors := by
  unfold onExit
  split
  · rfl
  · split
    · rfl
    · rw [restartAppInternal_errors_eq]; rfl

theorem onExit_forkCount (s : CState) (i : Nat) (h : s.errors ≠ []) :
    (onExit s i).forkCount = s.forkCount := by
  unfold onExit
  split
  · rfl
  · split
    · rfl
    · rw [restartAppInternal_of_errors _ (by exact h)]; rfl

theorem runListeners_errors (pid : Nat) : ∀ (idxs : List Nat) (s : CState),
    (runListeners pid idxs s).errors = s.errors := by
  intro idxs
  induction idxs with
  | nil => intro s; rfl
  | cons i is ih =>
    intro s
    unfold runListeners
    split
    · split
      · rw [ih, onExit_errors]
      · rw [ih]
    · rw [ih]

theorem runListeners_forkCount (pid : Nat) : ∀ (idxs : List Nat) (s : CState),
    s.errors ≠ [] → (runListeners pid idxs s).forkCount = s.forkCount := by
  intro idxs
  induction idxs with
  | nil => intro s _; rfl
  | cons i is ih =>
    intro s h
    unfold runListeners
    split
    · split
      · rw [ih _ (by rw [onExit_errors]; exact h), onExit_forkCount _ _ h]
      · exact ih _ h
    · exact ih _ h

theorem step_forkCount (s : CState) (e : Ev) (h : s.errors ≠ []) :
    (step s e).forkCount = s.forkCount := by
  cases e with
  | request =>
    simp only [step]
    unfold restartApp killApp
    split
    · rw [restartAppInternal_of_errors _ (show (clearState s).errors ≠ [] from h)]; rfl
    · split
      · rfl
      · rw [restartAppInternal_of_errors _ (show (clearState s).errors ≠ [] from h)]; rfl
  | exitEvt pid =>
    simp only [step]
    split
    · have hrl := runListeners_forkCount pid (List.range s.kills.length)
        { s with live := s.live.erase pid } h
      rw [hrl]
    · rfl
  | timer i =>
    simp only [step]
    unfold timerFire
    split
    · rfl
    · split
      · rfl
      · cases hca : s.childApp with
        | some p =>
          show (onExit { s with childApp := some p, live := s.live.erase p } i).forkCount =
            s.forkCount
          exact onExit_forkCount { s with childApp := some p, live := s.live.erase p } i h
        | none => exact onExit_forkCount s i h

/-! ### Claim C3 -/

/-- C3: while the error set is non-empty, the supervisor's start step
(`restartAppInternal`) is a no-op — the state is returned unchanged and no
worker is forked — for every route to it (restart request, deferred restart
on worker exit, or kill-timer expiry); contrapositively, a fork can only
happen from a state whose error set is empty. -/
theorem c3_errors_block_restart (s : CState) :
    (s.errors ≠ [] → restartAppInternal s = s) ∧
    (∀ e : Ev, s.errors ≠ [] → (step s e).forkCount = s.forkCount) ∧
    ((restartAppInternal s).forkCount ≠ s.forkCount → s.errors = []) := by
  refine ⟨restartAppInternal_of_errors s, fun e => step_forkCount s e, ?_⟩
  intro hfc
  by_contra herr
  exact hfc (by rw [restartAppInternal_of_errors s herr])

/-- C3 witness: a state with a failed path neither restarts on a request nor
changes under the start step. -/
theorem c3_errors_block_restart_witness :
    restartAppInternal ⟨some 1, true, [1], 2, ["a.js"], [], 1⟩ =
      ⟨some 1, true, [1], 2, ["a.js"], [], 1⟩ ∧
    (step ⟨some 1, true, [1], 2, ["a.js"], [], 1⟩ Ev.request).forkCount = 1 :=
  ⟨(c3_errors_block_restart ⟨some 1, true, [1], 2, ["a.js"], [], 1⟩).1 (by simp),
   (c3_errors_block_restart ⟨some 1, true, [1], 2, ["a.js"], [], 1⟩).2.1 Ev.request (by simp)⟩

/-! ### Debounce lemmas (C7) -/

theorem debounceFires_burst : ∀ (ts : List Nat) (t : Nat), isBurst (t :: ts) = true →
    ∃ tl : Nat, (t :: ts).getLast? = some tl ∧
      debounceFires DEBOUNCE_DURATION (t :: ts) = [tl + DEBOUNCE_DURATION] := by
  intro ts
  induction ts with
  | nil => intro t _; exact ⟨t, rfl, rfl⟩
  | cons t2 ts ih =>
    intro t1 hb
    have hb' : ((decide (t1 ≤ t2) && decide (t2 < t1 + DEBOUNCE_DURATION)) &&
        isBurst (t2 :: ts)) = true := hb
    simp only [Bool.and_eq_true, decide_eq_true_eq] at hb'
    obtain ⟨⟨hle, hlt⟩, hrest⟩ := hb'
    obtain ⟨tl, htl, hfires⟩ := ih t2 hrest
    refine ⟨tl, ?_, ?_⟩
    · rw [List.getLast?_cons_cons]
      exact htl
    · unfold debounceFires
      rw [if_pos hlt]
      exact hfires

/-! ### Claim C7 -/

/-- C7: the debounce window is the fixed 100 ms; each change event immediately
invalidates its own cache and error entries (after `handleChange` no cache or
error entry for the changed path remains); and a burst of events whose
consecutive gaps are all under the window produces exactly one (deferred)
`restartApp` invocation. -/
theorem c7_debounce_single_restart :
    DEBOUNCE_DURATION = 100 ∧
    (∀ (s : WatcherState) (file : String) (isIgnored : Bool),
      (∀ p ∈ ((handleChange s file isIgnored).1).cache, p.1 ≠ file) ∧
      file ∉ ((handleChange s file isIgnored).1).errors) ∧
    (∀ (t : Nat) (ts : List Nat), isBurst (t :: ts) = true →
      (debounceFires DEBOUNCE_DURATION (t :: ts)).length = 1) := by
  refine ⟨rfl, ?_, ?_⟩
  · intro s file isIgnored
    simp only [handleChange]
    by_cases hused : ((s.cache.any (fun p => p.1 = file)) || s.errors.contains file) = true
    · rw [if_pos hused]
      cases isIgnored with
      | true =>
        rw [if_pos rfl]
        constructor
        · intro p hp
          have hp2 : p ∈ List.filter (fun q => decide (q.1 ≠ file)) s.cache := hp
          have hp3 := (List.mem_filter.mp hp2).2
          simpa using hp3
        · intro hmem
          have hm2 : file ∈ List.filter (fun e => decide (e ≠ file)) s.errors := hmem
          have hm3 := (List.mem_filter.mp hm2).2
          simp at hm3
      | false =>
        rw [if_neg (by simp)]
        constructor
        · intro p hp
          have hp2 : p ∈ List.filter (fun q => decide (q.1 ≠ file)) s.cache := hp
          have hp3 := (List.mem_filter.mp hp2).2
          simpa using hp3
        · intro hmem
          have hm2 : file ∈ List.filter (fun e => decide (e ≠ file)) s.errors := hmem
          have hm3 := (List.mem_filter.mp hm2).2
          simp at hm3
    · rw [if_neg hused]
      simp only [Bool.or_eq_true, not_or] at hused
      obtain ⟨hany, hcont⟩ := hused
      have hcache : ∀ p ∈ s.cache, p.1 ≠ file := by
        intro p hp heq
        exact hany (List.any_eq_true.mpr ⟨p, hp, by simp [heq]⟩)
      have herr : file ∉ s.errors := by
        intro hmem
        exact hcont (by simpa using hmem)
      cases isIgnored with
      | true => rw [if_pos rfl]; exact ⟨hcache, herr⟩
      | false => rw [if_neg (by simp)]; exact ⟨hcache, herr⟩
  · intro t ts hb
    obtain ⟨tl, _, hfires⟩ := debounceFires_burst ts t hb
    rw [hfires]
    rfl

/-- C7 witness: a concrete three-event burst inside the window yields one
restart, and a change to a cached path removes its cache and error entries. -/
theorem c7_debounce_single_restart_witness :
    isBurst [0, 30, 60] = true ∧
    (debounceFires DEBOUNCE_DURATION [0, 30, 60]).length = 1 ∧
    (∀ p ∈ ((handleChange ⟨[("a.js", ⟨[1], [2], 3⟩)], ["a.js"], []⟩ "a.js" false).1).cache,
      p.1 ≠ "a.js") :=
  ⟨by decide, (c7_debounce_single_restart).2.2 0 [30, 60] (by decide),
   ((c7_debounce_single_restart).2.1 ⟨[("a.js", ⟨[1], [2], 3⟩)], ["a.js"], []⟩ "a.js" false).1⟩

/-! ### Supervisor invariant lemmas (C4, C5) -/

theorem allSettled_iff (s : CState) :
    allSettled s = true ↔ ∀ c ∈ s.kills, c.exited = true := by
  simp [allSettled, List.all_eq_true]

theorem onExit_of_exited (s : CState) (i : Nat) (ctx : KillCtx)
    (hk : s.kills[i]? = some ctx) (hex : ctx.exited = true) : onExit s i = s := by
  unfold onExit
  split
  · rfl
  · rename_i ctx2 hk2
    rw [hk] at hk2
    obtain rfl : ctx = ctx2 := Option.some.inj hk2
    rw [if_pos hex]

theorem onExit_fire (s : CState) (i : Nat) (ctx : KillCtx)
    (hk : s.kills[i]? = some ctx) (hex : ctx.exited = false) :
    onExit s i =
      restartAppInternal (clearState { s with kills := s.kills.set i ⟨ctx.target, true⟩ }) := by
  unfold onExit
  split
  · rename_i hk2
    rw [hk2] at hk
    simp at hk
  · rename_i ctx2 hk2
    rw [hk] at hk2
    obtain rfl : ctx = ctx2 := Option.some.inj hk2
    rw [if_neg (by simp [hex])]

theorem onExit_settled (s : CState) (i : Nat) (h : ∀ c ∈ s.kills, c.exited = true) :
    onExit s i = s := by
  unfold onExit
  split
  · rfl
  · rename_i ctx hk
    rw [if_pos (h ctx (List.getElem?_mem hk))]

theorem runListeners_settled (pid : Nat) : ∀ (idxs : List Nat) (s : CState),
    (∀ c ∈ s.kills, c.exited = true) → runListeners pid idxs s = s := by
  intro idxs
  induction idxs with
  | nil => intro s _; rfl
  | cons i is ih =>
    intro s h
    unfold runListeners
    split
    · split
      · rw [onExit_settled s i h]
        exact ih s h
      · exact ih s h
    · exact ih s h

theorem settle_all (ks : List KillCtx) (i : Nat) (ctx : KillCtx)
    (hU : UniqueUnsettled ks) (hk : ks[i]? = some ctx) (hex : ctx.exited = false) :
    ∀ c ∈ ks.set i ⟨ctx.target, true⟩, c.exited = true := by
  intro c hc
  rcases List.mem_iff_get?.mp hc with ⟨j, hj⟩
  rw [List.get?_eq_getElem?] at hj
  by_cases hij : i = j
  · subst hij
    have hilen : i < ks.length := (List.getElem?_eq_some.mp hk).1
    rw [List.getElem?_set_self hilen] at hj
    obtain rfl : (⟨ctx.target, true⟩ : KillCtx) = c := Option.some.inj hj
    rfl
  · rw [List.getElem?_set_ne hij] at hj
    by_cases hce : c.exited = true
    · exact hce
    · have hcf : c.exited = false := by simpa using hce
      exact absurd (hU i j ctx c hk hj hex hcf) hij

theorem inv_afterSettle (s : CState) (hset : ∀ c ∈ s.kills, c.exited = true)
    (hlive : s.live = []) : Inv (restartAppInternal (clearState s)) := by
  unfold restartAppInternal clearState
  split
  · refine ⟨?_, ?_, ?_, ?_⟩
    · show (s.nextPid :: s.live).length ≤ 1
      simp [hlive]
    · intro q hq
      have hq2 : q ∈ s.nextPid :: s.live := hq
      rw [hlive] at hq2
      have hq3 : q = s.nextPid := by simpa using hq2
      show some s.nextPid = some q
      rw [hq3]
    · intro c hc hcex
      have hc2 : c ∈ s.kills := hc
      exact absurd (hset c hc2) (by simp [hcex])
    · intro i j ci cj hi hj hci hcj
      have hi2 : s.kills[i]? = some ci := hi
      exact absurd (hset ci (List.getElem?_mem hi2)) (by simp [hci])
  · refine ⟨?_, ?_, ?_, ?_⟩
    · show s.live.length ≤ 1
      simp [hlive]
    · intro q hq
      have hq2 : q ∈ s.live := hq
      rw [hlive] at hq2
      simp at hq2
    · intro c hc hcex
      have hc2 : c ∈ s.kills := hc
      exact absurd (hset c hc2) (by simp [hcex])
    · intro i j ci cj hi hj hci hcj
      have hi2 : s.kills[i]? = some ci := hi
      exact absurd (hset ci (List.getElem?_mem hi2)) (by simp [hci])

theorem runListeners_inv (pid : Nat) : ∀ (idxs : List Nat) (s : CState),
    s.live = [] → s.childApp = some pid →
    (∀ c ∈ s.kills, c.exited = false → c.target = pid) →
    UniqueUnsettled s.kills →
    Inv (runListeners pid idxs s) := by
  intro idxs
  induction idxs with
  | nil =>
    intro s hlive hca hall hU
    show Inv s
    refine ⟨by simp [hlive], ?_, ?_, hU⟩
    · intro q hq
      rw [hlive] at hq
      simp at hq
    · intro c hc hcex
      rw [hca, hall c hc hcex]
  | cons i is ih =>
    intro s hlive hca hall hU
    unfold runListeners
    split
    · rename_i ctx hk
      split
      · rename_i htgt
        by_cases hex : ctx.exited = true
        · rw [onExit_of_exited s i ctx hk hex]
          exact ih s hlive hca hall hU
        · have hexf : ctx.exited = false := by simpa using hex
          rw [onExit_fire s i ctx hk hexf]
          have hsettled : ∀ c ∈ s.kills.set i ⟨ctx.target, true⟩, c.exited = true :=
            settle_all s.kills i ctx hU hk hexf
          set s2 : CState := { s with kills := s.kills.set i ⟨ctx.target, true⟩ } with hs2
          have hres : Inv (restartAppInternal (clearState s2)) :=
            inv_afterSettle s2 (by simpa [hs2] using hsettled) (by simp [hs2, hlive])
          have hnoop : runListeners pid is (restartAppInternal (clearState s2)) =
              restartAppInternal (clearState s2) := by
            apply runListeners_settled
            intro c hc
            have hkeq : (restartAppInternal (clearState s2)).kills = s2.kills := by
              rw [restartAppInternal_kills]
              rfl
            rw [hkeq] at hc
            exact hsettled c (by simpa [hs2] using hc)
          rw [hnoop]
          exact hres
      · exact ih s hlive hca hall hU
    · exact ih s hlive hca hall hU

theorem inv_init : Inv initState := by
  refine ⟨by simp [initState], ?_, ?_, ?_⟩
  · intro q hq
    simp [initState] at hq
  · intro c hc hcex
    simp [initState] at hc
  · intro i j ci cj hi hj hci hcj
    simp [initState] at hi

theorem inv_step (s : CState) (e : Ev) (hInv : Inv s)
    (hreq : e = Ev.request → allSettled s = true) : Inv (step s e) := by
  obtain ⟨hlen, hlive, hkills, hU⟩ := hInv
  cases e with
  | request =>
    have hset : ∀ c ∈ s.kills, c.exited = true := (allSettled_iff s).mp (hreq rfl)
    simp only [step]
    unfold restartApp killApp
    split
    · rename_i hca
      have hl : s.live = [] := by
        cases hlv : s.live with
        | nil => rfl
        | cons q qs =>
          have hq := hlive q (by rw [hlv]; exact List.mem_cons_self q qs)
          rw [hca] at hq
          cases hq
      exact inv_afterSettle s hset hl
    · rename_i pid hca
      split
      · rename_i hmem
        refine ⟨hlen, ?_, ?_, ?_⟩
        · intro q hq
          exact hlive q hq
        · intro c hc hcex
          have hc2 : c ∈ s.kills ++ [(⟨pid, false⟩ : KillCtx)] := hc
          rcases List.mem_append.mp hc2 with hcl | hcr
          · exact absurd (hset c hcl) (by simp [hcex])
          · have hcp : c = ⟨pid, false⟩ := by simpa using hcr
            show s.childApp = some c.target
            rw [hcp, hca]
        · intro i j ci cj hi hj hci hcj
          have hidx : ∀ (m : Nat) (c : KillCtx),
              (s.kills ++ [(⟨pid, false⟩ : KillCtx)])[m]? = some c → c.exited = false →
              m = s.kills.length := by
            intro m c hm hcex
            by_cases hlt : m < s.kills.length
            · rw [List.getElem?_append_left hlt] at hm
              exact absurd (hset c (List.getElem?_mem hm)) (by simp [hcex])
            · have hge : s.kills.length ≤ m := Nat.le_of_not_lt hlt
              rw [List.getElem?_append_right hge] at hm
              cases hmm : m - s.kills.length with
              | zero => omega
              | succ k =>
                rw [hmm] at hm
                simp at hm
          have hi2 : (s.kills ++ [(⟨pid, false⟩ : KillCtx)])[i]? = some ci := hi
          have hj2 : (s.kills ++ [(⟨pid, false⟩ : KillCtx)])[j]? = some cj := hj
          rw [hidx i ci hi2 hci, hidx j cj hj2 hcj]
      · rename_i hmem
        have hl : s.live = [] := by
          cases hlv : s.live with
          | nil => rfl
          | cons q qs =>
            have hq := hlive q (by rw [hlv]; exact List.mem_cons_self q qs)
            rw [hca] at hq
            have hqp : q = pid := (Option.some.inj hq).symm
            exact absurd (by rw [hlv, hqp]; exact List.mem_cons_self pid qs) hmem
        exact inv_afterSettle s hset hl
  | exitEvt pid =>
    simp only [step]
    split
    · rename_i hmem
      have hca : s.childApp = some pid := hlive pid hmem
      have hl : s.live = [pid] := by
        cases hlv : s.live with
        | nil =>
          rw [hlv] at hmem
          simp at hmem
        | cons q qs =>
          rw [hlv] at hmem hlen
          have hq := hlive q (by rw [hlv]; exact List.mem_cons_self q qs)
          rw [hca] at hq
          have hqp : q = pid := (Option.some.inj hq).symm
          cases qs with
          | nil => rw [hqp]
          | cons r rs => simp at hlen
      apply runListeners_inv pid (List.range s.kills.length)
        { s with live := s.live.erase pid }
      · show s.live.erase pid = []
        rw [hl]
        simp [List.erase_cons_head]
      · exact hca
      · intro c hc hcex
        have h1 := hkills c hc hcex
        rw [hca] at h1
        exact (Option.some.inj h1).symm
      · exact hU
    · exact ⟨hlen, hlive, hkills, hU⟩
  | timer i =>
    simp only [step]
    unfold timerFire
    split
    · exact ⟨hlen, hlive, hkills, hU⟩
    · rename_i ctx hk
      split
      · exact ⟨hlen, hlive, hkills, hU⟩
      · rename_i hexneg
        have hexf : ctx.exited = false := by simpa using hexneg
        have hca := hkills ctx (List.getElem?_mem hk) hexf
        rw [hca]
        show Inv (onExit { s with childApp := some ctx.target, live := s.live.erase ctx.target } i)
        set s1 : CState := { s with childApp := some ctx.target, live := s.live.erase ctx.target } with hs1
        rw [onExit_fire s1 i ctx (by exact hk) hexf]
        apply inv_afterSettle
        · exact settle_all s.kills i ctx hU hk hexf
        · show s.live.erase ctx.target = []
          cases hlv : s.live with
          | nil => rfl
          | cons q qs =>
            have hq := hlive q (by rw [hlv]; exact List.mem_cons_self q qs)
            rw [hca] at hq
            have hqp : q = ctx.target := (Option.some.inj hq).symm
            cases qs with
            | nil =>
              rw [hqp]
              simp [List.erase_cons_head]
            | cons r rs =>
              rw [hlv] at hlen
              simp at hlen

theorem run_inv : ∀ (es : List Ev) (s : CState), Inv s → noOverlapRun s es = true →
    Inv (es.foldl step s) := by
  intro es
  induction es with
  | nil => intro s h _; exact h
  | cons e es ih =>
    intro s h hno
    rw [List.foldl_cons]
    apply ih
    · apply inv_step s e h
      intro he
      subst he
      have h1 : (allSettled s && noOverlapRun (step s Ev.request) es) = true := hno
      simp only [Bool.and_eq_true] at h1
      exact h1.1
    · cases e with
      | request =>
        have h1 : (allSettled s && noOverlapRun (step s Ev.request) es) = true := hno
        simp only [Bool.and_eq_true] at h1
        exact h1.2
      | exitEvt pid =>
        have h1 : (true && noOverlapRun (step s (Ev.exitEvt pid)) es) = true := hno
        simpa using h1
      | timer i =>
        have h1 : (true && noOverlapRun (step s (Ev.timer i)) es) = true := hno
        simpa using h1

/-! ### Claim C4 -/

/-- C4 counterexample: after startup forks a first worker, two further
restart requests arriving while its teardown is still pending each run
`killApp`, registering two `once('exit')` listeners on the same child; when
the child exits both listeners fire and each forks a worker, leaving two
live worker processes at once — refuting "at most one live worker process at
every observable instant" on the code as written. -/
theorem c4_two_live_workers_counterexample :
    ¬ (([Ev.request, Ev.request, Ev.request, Ev.exitEvt 1].foldl step
        initState).live.length ≤ 1) := by
  decide

/-- C4 (amended): on every run in which no restart request arrives while a
previous `killApp` teardown is still pending (each request finds all earlier
kill contexts settled), at most one worker process is live in the resulting
state — and since every prefix of such a run is such a run, at most one
worker is live at every observable instant.  A new worker is forked only by
`restartAppInternal`, which in the model is invoked only after `clearState`
has cleared the handle within `onExit` (reached on observed exit or on the
forced-kill timeout). -/
theorem c4_single_live_worker_amended (es : List Ev)
    (hno : noOverlapRun initState es = true) :
    (es.foldl step initState).live.length ≤ 1 :=
  (run_inv es initState inv_init hno).1

/-- C4 witness: a concrete overlap-free run keeps a single live worker. -/
theorem c4_single_live_worker_amended_witness :
    noOverlapRun initState [Ev.request, Ev.exitEvt 1, Ev.request] = true ∧
    ([Ev.request, Ev.exitEvt 1, Ev.request].foldl step initState).live.length ≤ 1 :=
  ⟨by decide, c4_single_live_worker_amended [Ev.request, Ev.exitEvt 1, Ev.request] (by decide)⟩

/-! ### Claim C5 -/

/-- C5: for a worker being restarted that has not exited (its kill context is
still pending), the kill timer fires exactly `restartTimeout` after the
graceful signal (default 2000 ms when unconfigured), and its handler
forcefully kills the worker, completes the teardown (the kill context is
settled, the handle cleared) and proceeds to the next start (a fresh worker
is forked) — the supervisor never waits beyond the configured timeout. -/
theorem c5_forced_kill_bound (cfg : Option Nat) (t0 : Nat) (s : CState) (i : Nat)
    (ctx : KillCtx) (hk : s.kills[i]? = some ctx) (hex : ctx.exited = false)
    (hca : s.childApp = some ctx.target) (hl : s.live = [ctx.target])
    (herr : s.errors = []) (hfresh : s.nextPid ≠ ctx.target) :
    sigkillDeadline t0 cfg = t0 + restartTimeoutOf cfg ∧
    restartTimeoutOf none = 2000 ∧
    ctx.target ∉ (timerFire s i).live ∧
    (timerFire s i).live = [s.nextPid] ∧
    (timerFire s i).childApp = some s.nextPid ∧
    (timerFire s i).kills[i]? = some ⟨ctx.target, true⟩ ∧
    (timerFire s i).forkCount = s.forkCount + 1 := by
  have hfire : timerFire s i =
      restartAppInternal (clearState
        { s with childApp := some ctx.target, live := s.live.erase ctx.target,
                 kills := s.kills.set i ⟨ctx.target, true⟩ }) := by
    unfold timerFire
    split
    · rename_i hk2
      rw [hk2] at hk
      simp at hk
    · rename_i ctx2 hk2
      rw [hk] at hk2
      obtain rfl : ctx = ctx2 := Option.some.inj hk2
      rw [if_neg (by simp [hex])]
      rw [hca]
      show onExit { s with childApp := some ctx.target, live := s.live.erase ctx.target } i = _
      exact onExit_fire { s with childApp := some ctx.target, live := s.live.erase ctx.target } i ctx (by exact hk) hex
  have hcompute : restartAppInternal (clearState
      { s with childApp := some ctx.target, live := s.live.erase ctx.target,
               kills := s.kills.set i ⟨ctx.target, true⟩ }) =
      { childApp := some s.nextPid, pipeOpen := true, live := [s.nextPid],
        nextPid := s.nextPid + 1, errors := s.errors,
        kills := s.kills.set i ⟨ctx.target, true⟩, forkCount := s.forkCount + 1 } := by
    unfold restartAppInternal clearState
    rw [if_pos (by simp [herr])]
    simp [hl, List.erase_cons_head]
  rw [hfire, hcompute]
  refine ⟨rfl, rfl, ?_, rfl, rfl, ?_, rfl⟩
  · intro hmem
    have : ctx.target = s.nextPid := by simpa using hmem
    exact hfresh this.symm
  · rw [List.getElem?_set_self (List.getElem?_eq_some.mp hk).1]

/-- C5 witness: a pending kill of worker 1 with the timer firing force-kills
it, settles the kill context and forks worker 2. -/
theorem c5_forced_kill_bound_witness :
    restartTimeoutOf none = 2000 ∧
    (timerFire ⟨some 1, true, [1], 2, [], [⟨1, false⟩], 1⟩ 0).childApp = some 2 ∧
    (1 : Nat) ∉ (timerFire ⟨some 1, true, [1], 2, [], [⟨1, false⟩], 1⟩ 0).live :=
  ⟨(c5_forced_kill_bound none 0 ⟨some 1, true, [1], 2, [], [⟨1, false⟩], 1⟩ 0 ⟨1, false⟩
      rfl rfl rfl rfl rfl (by decide)).2.1,
   (c5_forced_kill_bound none 0 ⟨some 1, true, [1], 2, [], [⟨1, false⟩], 1⟩ 0 ⟨1, false⟩
      rfl rfl rfl rfl rfl (by decide)).2.2.2.2.1,
   (c5_forced_kill_bound none 0 ⟨some 1, true, [1], 2, [], [⟨1, false⟩], 1⟩ 0 ⟨1, false⟩
      rfl rfl rfl rfl rfl (by decide)).2.2.1⟩

end BabelWatch
